import Mathlib

/-!
Verification of the synthetic OCR noise injector of PrescriptionOCR.

The injector lives in the extract-text route handler. It consists of
`introduceRealisticOCRErrors` (a character-level corruption loop driven by a
character-confusion table and three nested probability checks),
`addOCRFormattingIssues` (three sequential regex-replace passes over the
string: spurious line breaks, whitespace-run deletion, extra-space
insertion), and the field orchestrator inside the POST handler that applies
these passes to the parsed extraction result.

Randomness is modelled as an explicit stream of rational draws in `[0,1)`,
consumed left to right, one value per call of the ambient random generator
in the code; every function threads the remaining stream through.  Strings
are modelled as `List Char`.
-/

namespace PrescriptionOCR

/-- JS regex word-character class `\w`, namely ASCII letters, digits and
underscore, written over the character's code point. -/
def isWordChar (c : Char) : Bool :=
  (65 ≤ c.toNat && c.toNat ≤ 90) || (97 ≤ c.toNat && c.toNat ≤ 122) ||
  (48 ≤ c.toNat && c.toNat ≤ 57) || c.toNat == 95

/-- JS regex whitespace class `\s`: space, tab, line feed, vertical tab, form
feed, carriage return, and the Unicode space separators matched by the class. -/
def isSpaceChar (c : Char) : Bool :=
  c.toNat == 32 || (9 ≤ c.toNat && c.toNat ≤ 13) || c.toNat == 160 ||
  c.toNat == 5760 || (8192 ≤ c.toNat && c.toNat ≤ 8202) ||
  c.toNat == 8232 || c.toNat == 8233 || c.toNat == 8239 ||
  c.toNat == 8287 || c.toNat == 12288 || c.toNat == 65279

theorem isWordChar_not_isSpaceChar (c : Char) (h : isWordChar c = true) :
    isSpaceChar c = false := by
  rw [Bool.eq_false_iff]
  intro hs
  simp only [isWordChar, Bool.or_eq_true, Bool.and_eq_true,
    decide_eq_true_eq, beq_iff_eq] at h
  simp only [isSpaceChar, Bool.or_eq_true, Bool.and_eq_true,
    decide_eq_true_eq, beq_iff_eq] at hs
  omega

/-- The per-character error probability, `const errorRate = 0.15` in the source. -/
def errorRate : ℚ := mkRat 15 100

/-- The `ocrErrors` object literal, transcribed as the sequence of key/value
insertions in source order, duplicate keys included. -/
def ocrErrorsList : List (Char × Char) :=
  [('O', '0'), ('0', 'O'), ('I', '1'), ('1', 'I'), ('l', '1'), ('1', 'l'),
   ('S', '5'), ('5', 'S'), ('B', '8'), ('8', 'B'), ('G', '6'), ('6', 'G'),
   ('Z', '2'), ('2', 'Z'), ('q', '9'), ('9', 'q'),
   ('m', 'n'), ('n', 'm'), ('u', 'v'), ('v', 'u'), ('c', 'e'), ('e', 'c'),
   ('a', 'o'), ('o', 'a'), ('h', 'b'), ('b', 'h'), ('p', 'q'), ('q', 'p'),
   ('r', 'n'), ('n', 'r'), ('f', 't'), ('t', 'f'), ('i', 'j'), ('j', 'i'),
   ('C', 'c'), ('c', 'C'), ('P', 'p'), ('p', 'P'), ('K', 'k'), ('k', 'K'),
   ('V', 'v'), ('v', 'V'), ('W', 'w'), ('w', 'W'), ('X', 'x'), ('x', 'X'),
   ('Y', 'y'), ('y', 'Y'), ('Z', 'z'), ('z', 'Z')]

/-- Sequential insertion into one mapping: a later entry for the same key
overwrites an earlier one, exactly as in a JS object literal. -/
def buildTable (l : List (Char × Char)) : Char → Option Char :=
  l.foldl (fun m kv => fun c => if c = kv.1 then some kv.2 else m c) (fun _ => none)

/-- The character-confusion table actually observable at runtime: lookup in the
object built from `ocrErrorsList`. -/
def ocrErrors (c : Char) : Option Char := buildTable ocrErrorsList c

/-- The body of the `for` loop of `introduceRealisticOCRErrors`, with the
accumulated result string made explicit; `acc ++ …` mirrors `result += …` and
the recursion without an append mirrors `continue`. -/
def introduceLoop (acc : List Char) : List Char → Stream' ℚ → List Char × Stream' ℚ
  | [], g => (acc, g)
  | c :: cs, g =>
    if g.head < errorRate then
      match ocrErrors c with
      | some m => introduceLoop (acc ++ [m]) cs g.tail
      | none =>
        if g.tail.head < mkRat 3 10 then
          introduceLoop acc cs g.tail.tail
        else if g.tail.tail.head < mkRat 2 10 then
          introduceLoop (acc ++ [c, c]) cs g.tail.tail.tail
        else
          introduceLoop (acc ++ [c]) cs g.tail.tail.tail
    else
      introduceLoop (acc ++ [c]) cs g.tail

/-- Character-level corruption pass `introduceRealisticOCRErrors`. -/
def introduceRealisticOCRErrors (text : List Char) (g : Stream' ℚ) :
    List Char × Stream' ℚ :=
  introduceLoop [] text g

/-- Per-character emission as the spec describes it in §4.1: a first draw below
the error rate selects the error branch; there a confusion-table entry takes
precedence, otherwise a second draw below 0.3 drops the character, otherwise a
third draw below 0.2 duplicates it, otherwise it is kept; at or above the error
rate it is kept. -/
def emitCharSpec (c : Char) (g : Stream' ℚ) : List Char × Stream' ℚ :=
  if g.head < errorRate then
    match ocrErrors c with
    | some m => ([m], g.tail)
    | none =>
      if g.tail.head < mkRat 3 10 then ([], g.tail.tail)
      else if g.tail.tail.head < mkRat 2 10 then ([c, c], g.tail.tail.tail)
      else ([c], g.tail.tail.tail)
  else ([c], g.tail)

/-- Left-to-right concatenation of the per-character emissions of
`emitCharSpec`, threading the random stream. -/
def emitAllSpec : List Char → Stream' ℚ → List Char × Stream' ℚ
  | [], g => ([], g)
  | c :: cs, g =>
    let e := emitCharSpec c g
    let rest := emitAllSpec cs e.2
    (e.1 ++ rest.1, rest.2)

theorem introduceLoop_eq_emitAllSpec (t : List Char) :
    ∀ (acc : List Char) (g : Stream' ℚ),
      introduceLoop acc t g = (acc ++ (emitAllSpec t g).1, (emitAllSpec t g).2) := by
  induction t with
  | nil => intro acc g; simp [introduceLoop, emitAllSpec]
  | cons c cs ih =>
    intro acc g
    by_cases h1 : g.head < errorRate
    · cases hoc : ocrErrors c with
      | some m =>
        simp only [introduceLoop, emitAllSpec, emitCharSpec, if_pos h1, hoc, ih,
          List.append_assoc, List.singleton_append, List.cons_append,
          List.nil_append]
      | none =>
        by_cases h2 : g.tail.head < mkRat 3 10
        · simp only [introduceLoop, emitAllSpec, emitCharSpec, if_pos h1, hoc,
            if_pos h2, ih, List.append_nil, List.nil_append]
        · by_cases h3 : g.tail.tail.head < mkRat 2 10
          · simp only [introduceLoop, emitAllSpec, emitCharSpec, if_pos h1, hoc,
              if_neg h2, if_pos h3, ih, List.append_assoc, List.cons_append,
              List.nil_append]
          · simp only [introduceLoop, emitAllSpec, emitCharSpec, if_pos h1, hoc,
              if_neg h2, if_neg h3, ih, List.append_assoc, List.cons_append,
              List.nil_append]
    · simp only [introduceLoop, emitAllSpec, emitCharSpec, if_neg h1, ih,
        List.append_assoc, List.cons_append, List.nil_append]

/-- Character class used by the regex passes: word character, whitespace, or
anything else. -/
def charKind (c : Char) : Nat :=
  if isWordChar c then 0 else if isSpaceChar c then 1 else 2

/-- Decomposition of a string into its maximal runs of characters of one class,
in order.  A regex scan over the string sees exactly these runs. -/
def tokens : List Char → List (List Char)
  | [] => []
  | c :: cs =>
    match tokens cs with
    | [] => [[c]]
    | [] :: ts => [c] :: [] :: ts
    | (d :: t) :: ts =>
      if charKind c = charKind d then (c :: d :: t) :: ts
      else [c] :: (d :: t) :: ts

/-- A run is a word run when it starts with a word character (runs produced by
`tokens` are homogeneous). -/
def runIsWord : List Char → Bool
  | [] => false
  | c :: _ => isWordChar c

/-- A run is a whitespace run when it starts with a whitespace character. -/
def runIsSpace : List Char → Bool
  | [] => false
  | c :: _ => isSpaceChar c

/-- Pass 1 of `addOCRFormattingIssues`, the global replace of
`(\w+)\s+(\w+)` at the level of maximal runs: a match is a word run followed by
a whitespace run followed by a word run; the scan is leftmost and
non-overlapping, so all three runs of a match are consumed and scanning
resumes after the second word.  Per match one draw decides (below 0.1) whether
the separating whitespace becomes a line break. -/
def pairScan : List (List Char) → Stream' ℚ → List Char × Stream' ℚ
  | [], g => ([], g)
  | [t], g => (t, g)
  | [t1, t2], g => (t1 ++ t2, g)
  | t1 :: t2 :: t3 :: ts, g =>
    if runIsWord t1 && runIsSpace t2 && runIsWord t3 then
      let rest := pairScan ts g.tail
      ((t1 ++ (if g.head < mkRat 1 10 then ['\n'] else t2) ++ t3) ++ rest.1, rest.2)
    else
      let rest := pairScan (t2 :: t3 :: ts) g
      (t1 ++ rest.1, rest.2)

/-- The spurious-line-break replace applied to a string. -/
def lineBreakPass (l : List Char) (g : Stream' ℚ) : List Char × Stream' ℚ :=
  pairScan (tokens l) g

/-- Pass 2 of `addOCRFormattingIssues`, the global replace of `\s+`: one draw
per maximal whitespace run, taken at the run's first character; below 0.15 the
whole run is deleted, otherwise it is kept.  The `Option Bool` state records
whether the scan is inside a run whose fate is already decided. -/
def spaceDeleteGo (st : Option Bool) : List Char → Stream' ℚ → List Char × Stream' ℚ
  | [], g => ([], g)
  | c :: cs, g =>
    if isSpaceChar c then
      match st with
      | some keep =>
        let rest := spaceDeleteGo (some keep) cs g
        ((if keep then c :: rest.1 else rest.1), rest.2)
      | none =>
        if g.head < mkRat 15 100 then
          let rest := spaceDeleteGo (some false) cs g.tail
          (rest.1, rest.2)
        else
          let rest := spaceDeleteGo (some true) cs g.tail
          (c :: rest.1, rest.2)
    else
      let rest := spaceDeleteGo none cs g
      (c :: rest.1, rest.2)

/-- The space-deletion replace applied to a string. -/
def spaceDeletePass (l : List Char) (g : Stream' ℚ) : List Char × Stream' ℚ :=
  spaceDeleteGo none l g

/-- Pass 3 of `addOCRFormattingIssues`, the global replace of `(\w)`: one draw
per word character; below 0.08 one space is appended right after it.
Non-word characters are not matched and consume no draw. -/
def spaceInsertPass : List Char → Stream' ℚ → List Char × Stream' ℚ
  | [], g => ([], g)
  | c :: cs, g =>
    if isWordChar c then
      let rest := spaceInsertPass cs g.tail
      ((if g.head < mkRat 8 100 then c :: ' ' :: rest.1 else c :: rest.1), rest.2)
    else
      let rest := spaceInsertPass cs g
      (c :: rest.1, rest.2)

/-- Formatting-noise pass `addOCRFormattingIssues`: the three replaces in
source order, each consuming the previous one's output. -/
def addOCRFormattingIssues (l : List Char) (g : Stream' ℚ) : List Char × Stream' ℚ :=
  let r1 := lineBreakPass l g
  let r2 := spaceDeletePass r1.1 r1.2
  spaceInsertPass r2.1 r2.2

/-- A medication record of the parsed extraction result.  A field is `none`
when it is null or absent in the JSON and `some s` when it is the string `s`;
the empty string is `some []`, which is falsy in JS. -/
structure Medication where
  name : Option (List Char)
  dosage : Option (List Char)
  frequency : Option (List Char)
  duration : Option (List Char)
  instructions : Option (List Char)

/-- The parsed extraction result handled by the POST orchestrator. -/
structure ParsedData where
  text : List Char
  medications : List Medication
  doctorName : Option (List Char)
  prescriptionDate : Option (List Char)

/-- The JS conditional `f ? introduceRealisticOCRErrors(f) : f`: a truthy
(present and non-empty) string field is corrupted, a null/absent or empty one
is returned as is. -/
def corruptField (f : Option (List Char)) (g : Stream' ℚ) :
    Option (List Char) × Stream' ℚ :=
  match f with
  | none => (none, g)
  | some s =>
    if s.isEmpty then (some s, g)
    else
      let r := introduceRealisticOCRErrors s g
      (some r.1, r.2)

/-- The medication mapper of the orchestrator: each of the five sub-fields goes
through `corruptField` in the source's property order. -/
def corruptMedication (m : Medication) (g : Stream' ℚ) : Medication × Stream' ℚ :=
  let n := corruptField m.name g
  let d := corruptField m.dosage n.2
  let f := corruptField m.frequency d.2
  let du := corruptField m.duration f.2
  let ins := corruptField m.instructions du.2
  (⟨n.1, d.1, f.1, du.1, ins.1⟩, ins.2)

/-- `parsedData.medications.map(…)` with the random stream threaded in list
order. -/
def corruptMeds : List Medication → Stream' ℚ → List Medication × Stream' ℚ
  | [], g => ([], g)
  | m :: ms, g =>
    let m2 := corruptMedication m g
    let rest := corruptMeds ms m2.2
    (m2.1 :: rest.1, rest.2)

/-- The field orchestrator of the POST handler on the successfully-parsed
branch: the full text gets the character pass then the formatting pass, every
medication sub-field and the doctor name go through `corruptField` (character
pass only, guarded by truthiness), and the prescription date is left alone. -/
def processParsedData (d : ParsedData) (g : Stream' ℚ) : ParsedData × Stream' ℚ :=
  let t1 := introduceRealisticOCRErrors d.text g
  let t2 := addOCRFormattingIssues t1.1 t1.2
  let ms := corruptMeds d.medications t2.2
  let doc := corruptField d.doctorName ms.2
  (⟨t2.1, ms.1, doc.1, d.prescriptionDate⟩, doc.2)

theorem emitCharSpec_length_le (c : Char) (g : Stream' ℚ) :
    (emitCharSpec c g).1.length ≤ 2 := by
  simp only [emitCharSpec]
  split
  · split
    · simp
    · split
      · simp
      · split <;> simp
  · simp

theorem emitAllSpec_length_le (t : List Char) :
    ∀ g, (emitAllSpec t g).1.length ≤ 2 * t.length := by
  induction t with
  | nil => intro g; simp [emitAllSpec]
  | cons c cs ih =>
    intro g
    simp only [emitAllSpec, List.length_append, List.length_cons]
    have h1 := emitCharSpec_length_le c g
    have h2 := ih (emitCharSpec c g).2
    omega

/-- C1: the character-level corruption pass is the left-to-right concatenation
of a per-character emission; for each character, a first draw below 0.15
selects the error branch, where a confusion-table entry is emitted in place of
the character (taking precedence over drop and duplicate); otherwise a second
draw below 0.3 emits nothing, otherwise a third draw below 0.2 — evaluated
only when the 0.3 check fails — emits the character twice, otherwise the
character is emitted unchanged; a first draw at or above 0.15 emits the
character unchanged. -/
theorem C1_char_emission_structure :
    (∀ t g, introduceRealisticOCRErrors t g = emitAllSpec t g)
    ∧ (∀ c cs g, emitAllSpec (c :: cs) g =
        ((emitCharSpec c g).1 ++ (emitAllSpec cs (emitCharSpec c g).2).1,
          (emitAllSpec cs (emitCharSpec c g).2).2))
    ∧ (∀ c g m, g.head < errorRate → ocrErrors c = some m →
        emitCharSpec c g = ([m], g.tail))
    ∧ (∀ c g, g.head < errorRate → ocrErrors c = none →
        g.tail.head < mkRat 3 10 → emitCharSpec c g = ([], g.tail.tail))
    ∧ (∀ c g, g.head < errorRate → ocrErrors c = none →
        ¬ g.tail.head < mkRat 3 10 → g.tail.tail.head < mkRat 2 10 →
        emitCharSpec c g = ([c, c], g.tail.tail.tail))
    ∧ (∀ c g, g.head < errorRate → ocrErrors c = none →
        ¬ g.tail.head < mkRat 3 10 → ¬ g.tail.tail.head < mkRat 2 10 →
        emitCharSpec c g = ([c], g.tail.tail.tail))
    ∧ (∀ c g, ¬ g.head < errorRate → emitCharSpec c g = ([c], g.tail)) := by
  refine ⟨fun t g => ?_, fun c cs g => rfl, ?_, ?_, ?_, ?_, ?_⟩
  · simp [introduceRealisticOCRErrors, introduceLoop_eq_emitAllSpec]
  · intro c g m h1 hoc
    simp only [emitCharSpec, if_pos h1, hoc]
  · intro c g h1 hoc h2
    simp only [emitCharSpec, if_pos h1, hoc, if_pos h2]
  · intro c g h1 hoc h2 h3
    simp only [emitCharSpec, if_pos h1, hoc, if_neg h2, if_pos h3]
  · intro c g h1 hoc h2 h3
    simp only [emitCharSpec, if_pos h1, hoc, if_neg h2, if_neg h3]
  · intro c g h1
    simp only [emitCharSpec, if_neg h1]

theorem C1_witness :
    introduceRealisticOCRErrors ['Q'] (fun _ => 0) = emitAllSpec ['Q'] (fun _ => 0)
    ∧ emitCharSpec 'Q' (fun _ => (0 : ℚ)) =
        ([], Stream'.tail (Stream'.tail (fun _ => (0 : ℚ)))) := by
  constructor
  · exact C1_char_emission_structure.1 ['Q'] (fun _ => 0)
  · exact C1_char_emission_structure.2.2.2.1 'Q' (fun _ => (0 : ℚ))
      (by decide) (by decide) (by decide)

/-- C3: for every input string of length N the corruption pass emits between 0
and 2N characters, each input character contributing at most two output
characters. -/
theorem C3_length_bound :
    (∀ t g, (introduceRealisticOCRErrors t g).1.length ≤ 2 * t.length)
    ∧ (∀ c g, (emitCharSpec c g).1.length ≤ 2) := by
  constructor
  · intro t g
    have h := introduceLoop_eq_emitAllSpec t [] g
    simp only [introduceRealisticOCRErrors, h, List.nil_append]
    exact emitAllSpec_length_le t g
  · exact emitCharSpec_length_le

/-- C9: both passes are deterministic functions of the input string and the
random stream — identical input and identical stream give identical output. -/
theorem C9_determinism (t : List Char) (g1 g2 : Stream' ℚ)
    (h : ∀ n, g1.get n = g2.get n) :
    introduceRealisticOCRErrors t g1 = introduceRealisticOCRErrors t g2
    ∧ addOCRFormattingIssues t g1 = addOCRFormattingIssues t g2 := by
  have hg : g1 = g2 := Stream'.ext h
  subst hg
  exact ⟨rfl, rfl⟩

theorem C9_witness :
    introduceRealisticOCRErrors ['a'] (fun _ => 0) =
      introduceRealisticOCRErrors ['a'] (fun _ => 0) :=
  (C9_determinism ['a'] (fun _ => 0) (fun _ => 0) (fun _ => rfl)).1

theorem buildTable_eq_reverse_lookup (l : List (Char × Char)) :
    ∀ (f : Char → Option Char) (c : Char),
      l.foldl (fun m kv => fun x => if x = kv.1 then some kv.2 else m x) f c =
        (List.lookup c l.reverse).or (f c) := by
  induction l with
  | nil => intro f c; simp [List.lookup]
  | cons kv t ih =>
    intro f c
    simp only [List.foldl_cons, List.reverse_cons, List.lookup_append, ih]
    cases hl : List.lookup c t.reverse with
    | some v => simp [Option.or]
    | none =>
      simp only [Option.or]
      by_cases hc : c = kv.1
      · subst hc
        simp [List.lookup]
      · have hb : (c == kv.1) = false := beq_eq_false_iff_ne.mpr hc
        simp [List.lookup, hb, hc]

/-- C8: the confusion table is built by sequential insertion, so lookup sees
only the last declaration of a repeated key — in particular the repeated keys
1, n, q, c, p, v (and Z) resolve to their last-declared values — and a
character without an entry passes through the corruption pass unchanged when
neither the drop draw nor the duplicate draw fires. -/
theorem C8_last_write_wins :
    (∀ c, ocrErrors c = List.lookup c ocrErrorsList.reverse)
    ∧ (ocrErrors '1' = some 'l' ∧ ocrErrors 'n' = some 'r' ∧ ocrErrors 'q' = some 'p'
      ∧ ocrErrors 'c' = some 'C' ∧ ocrErrors 'p' = some 'P' ∧ ocrErrors 'v' = some 'V'
      ∧ ocrErrors 'Z' = some 'z')
    ∧ (∀ c g, ocrErrors c = none → ¬ g.tail.head < mkRat 3 10 →
        ¬ g.tail.tail.head < mkRat 2 10 →
        (introduceRealisticOCRErrors [c] g).1 = [c]) := by
  refine ⟨?_, by decide, ?_⟩
  · intro c
    have h := buildTable_eq_reverse_lookup ocrErrorsList (fun _ => none) c
    simp only [ocrErrors, buildTable, h, Option.or_none]
  · intro c g hoc h2 h3
    by_cases h1 : g.head < errorRate
    · simp only [introduceRealisticOCRErrors, introduceLoop, if_pos h1, hoc,
        if_neg h2, if_neg h3, List.nil_append]
    · simp only [introduceRealisticOCRErrors, introduceLoop, if_neg h1,
        List.nil_append]

theorem C8_witness :
    ocrErrors 'Q' = List.lookup 'Q' ocrErrorsList.reverse
    ∧ (introduceRealisticOCRErrors ['Q'] (fun _ => 1)).1 = ['Q'] := by
  constructor
  · exact C8_last_write_wins.1 'Q'
  · exact C8_last_write_wins.2.2 'Q' (fun _ => 1) (by decide) (by decide) (by decide)

theorem charKind_eq_zero_iff (c : Char) : charKind c = 0 ↔ isWordChar c = true := by
  unfold charKind
  by_cases hw : isWordChar c = true
  · simp [hw]
  · by_cases hs : isSpaceChar c = true <;>
      simp [hw, hs, Bool.not_eq_true _ ▸ hw]

theorem charKind_eq_one_iff (c : Char) : charKind c = 1 ↔ isSpaceChar c = true := by
  unfold charKind
  by_cases hw : isWordChar c = true
  · simp [hw, isWordChar_not_isSpaceChar c hw]
  · by_cases hs : isSpaceChar c = true <;> simp [hw, hs]

theorem tokens_flatten (l : List Char) : (tokens l).flatten = l := by
  induction l using tokens.induct with
  | case1 => rfl
  | case2 c cs h ih =>
    rw [h] at ih
    simp only [tokens, h, List.flatten] at *
    simp [← ih]
  | case3 c cs ts h ih =>
    rw [h] at ih
    simp only [tokens, h, List.flatten] at *
    simp [← ih]
  | case4 c cs d t ts h hk ih =>
    rw [h] at ih
    simp only [tokens, h, if_pos hk, List.flatten] at *
    simp [← ih]
  | case5 c cs d t ts h hk ih =>
    rw [h] at ih
    simp only [tokens, h, if_neg hk, List.flatten] at *
    simp [← ih]

/-- Every run produced by `tokens` consists of characters of one class. -/
theorem tokens_uniform (l : List Char) :
    ∀ t ∈ tokens l, ∀ c ∈ t, ∀ d ∈ t, charKind c = charKind d := by
  induction l using tokens.induct with
  | case1 => simp [tokens]
  | case2 c cs h ih =>
    simp only [tokens, h]
    intro t ht x hx y hy
    simp only [List.mem_singleton] at ht
    subst ht
    simp only [List.mem_singleton] at hx hy
    rw [hx, hy]
  | case3 c cs ts h ih =>
    rw [h] at ih
    simp only [tokens, h]
    intro t ht x hx y hy
    rcases List.mem_cons.mp ht with h1 | h1
    · subst h1
      simp only [List.mem_singleton] at hx hy
      rw [hx, hy]
    · exact ih t h1 x hx y hy
  | case4 c cs d t ts h hk ih =>
    rw [h] at ih
    simp only [tokens, h, if_pos hk]
    intro u hu x hx y hy
    rcases List.mem_cons.mp hu with h1 | h1
    · subst h1
      have base : ∀ z ∈ c :: d :: t, charKind z = charKind d := by
        intro z hz
        rcases List.mem_cons.mp hz with h2 | h2
        · rw [h2, hk]
        · exact ih (d :: t) (List.mem_cons_self _ _) z h2 d (List.mem_cons_self _ _)
      rw [base x hx, base y hy]
    · exact ih u (List.mem_cons_of_mem _ h1) x hx y hy
  | case5 c cs d t ts h hk ih =>
    rw [h] at ih
    simp only [tokens, h, if_neg hk]
    intro u hu x hx y hy
    rcases List.mem_cons.mp hu with h1 | h1
    · subst h1
      simp only [List.mem_singleton] at hx hy
      rw [hx, hy]
    · exact ih u h1 x hx y hy

theorem pairScan_subset (ts : List (List Char)) (g : Stream' ℚ) :
    ∀ c ∈ (pairScan ts g).1, c ∈ ts.flatten ∨ c = '\n' := by
  induction ts, g using pairScan.induct with
  | case1 g => simp [pairScan]
  | case2 t g =>
    intro c hc
    simp only [pairScan] at hc
    simp only [List.flatten_cons, List.flatten_nil, List.append_nil]
    exact Or.inl hc
  | case3 t1 t2 g =>
    intro c hc
    simp only [pairScan, List.mem_append] at hc
    simp only [List.flatten_cons, List.flatten_nil, List.mem_append]
    tauto
  | case4 t1 t2 t3 ts g hcond ih =>
    intro c hc
    have hih := ih c
    simp only [pairScan] at hc
    rw [if_pos hcond] at hc
    simp only [List.flatten_cons, List.mem_append, List.append_assoc]
    by_cases hr : g.head < mkRat 1 10
    · rw [if_pos hr] at hc
      simp only [List.mem_append, List.mem_singleton, List.append_assoc] at hc
      tauto
    · rw [if_neg hr] at hc
      simp only [List.mem_append, List.append_assoc] at hc
      tauto
  | case5 t1 t2 t3 ts g hcond ih =>
    intro c hc
    have hih := ih c
    simp only [pairScan] at hc
    rw [if_neg hcond] at hc
    simp only [List.mem_append] at hc
    simp only [List.flatten_cons, List.mem_append, List.append_assoc] at hih ⊢
    tauto

theorem run_space_all (t : List Char) (hs : runIsSpace t = true)
    (hu : ∀ c ∈ t, ∀ d ∈ t, charKind c = charKind d) :
    ∀ c ∈ t, isSpaceChar c = true := by
  cases t with
  | nil => cases hs
  | cons e r =>
    intro c hc
    have he : isSpaceChar e = true := hs
    have hk := hu c hc e (List.mem_cons_self _ _)
    rw [(charKind_eq_one_iff e).mpr he] at hk
    exact (charKind_eq_one_iff c).mp hk

theorem filter_nonspace_all_space (t : List Char)
    (h : ∀ c ∈ t, isSpaceChar c = true) :
    t.filter (fun c => !(isSpaceChar c)) = [] := by
  rw [List.filter_eq_nil_iff]
  intro a ha
  simp [h a ha]

/-- Pass 1 only rewrites whitespace: the non-whitespace characters of its
output are exactly those of the concatenation of its runs, in order. -/
theorem pairScan_filter (ts : List (List Char)) (g : Stream' ℚ)
    (hu : ∀ t ∈ ts, ∀ c ∈ t, ∀ d ∈ t, charKind c = charKind d) :
    (pairScan ts g).1.filter (fun c => !(isSpaceChar c)) =
      ts.flatten.filter (fun c => !(isSpaceChar c)) := by
  induction ts, g using pairScan.induct with
  | case1 g => rfl
  | case2 t g => simp [pairScan]
  | case3 t1 t2 g => simp [pairScan]
  | case4 t1 t2 t3 ts g hcond ih =>
    have hsp : runIsSpace t2 = true := by
      rcases Bool.and_eq_true_iff.mp hcond with ⟨h12, _⟩
      exact (Bool.and_eq_true_iff.mp h12).2
    have ht2 : ∀ c ∈ t2, isSpaceChar c = true :=
      run_space_all t2 hsp (hu t2 (by simp))
    have ht2f := filter_nonspace_all_space t2 ht2
    have ihr := ih (fun t ht => hu t (by simp [ht]))
    simp only [pairScan]
    rw [if_pos hcond]
    simp only [List.flatten_cons, List.filter_append, ihr, ht2f, List.nil_append]
    by_cases hr : g.head < mkRat 1 10
    · rw [if_pos hr]
      simp only [List.filter_append, List.append_assoc]
      have : List.filter (fun c => !(isSpaceChar c)) ['\n'] = [] := by decide
      rw [this]
      simp
    · rw [if_neg hr]
      simp only [List.filter_append, List.append_assoc, ht2f]
      simp
  | case5 t1 t2 t3 ts g hcond ih =>
    have ihr := ih (fun t ht => hu t (List.mem_cons_of_mem _ ht))
    simp only [pairScan]
    rw [if_neg hcond]
    simp only [List.flatten_cons, List.filter_append, ihr, List.append_assoc]

/-- Pass 2 never emits a character that was not in its input. -/
theorem spaceDeleteGo_subset (l : List Char) :
    ∀ (st : Option Bool) (g : Stream' ℚ) c, c ∈ (spaceDeleteGo st l g).1 → c ∈ l := by
  induction l with
  | nil => intro st g c hc; simp [spaceDeleteGo] at hc
  | cons a cs ih =>
    intro st g c hc
    by_cases ha : isSpaceChar a = true
    · cases st with
      | some keep =>
        cases keep with
        | true =>
          simp only [spaceDeleteGo, if_pos ha] at hc
          rcases List.mem_cons.mp hc with h | h
          · exact h ▸ List.mem_cons_self _ _
          · exact List.mem_cons_of_mem _ (ih _ _ c h)
        | false =>
          simp only [spaceDeleteGo, if_pos ha] at hc
          exact List.mem_cons_of_mem _ (ih _ _ c hc)
      | none =>
        by_cases hr : g.head < mkRat 15 100
        · simp only [spaceDeleteGo, if_pos ha, if_pos hr] at hc
          exact List.mem_cons_of_mem _ (ih _ _ c hc)
        · simp only [spaceDeleteGo, if_pos ha, if_neg hr] at hc
          rcases List.mem_cons.mp hc with h | h
          · exact h ▸ List.mem_cons_self _ _
          · exact List.mem_cons_of_mem _ (ih _ _ c h)
    · have ha2 : isSpaceChar a = false := Bool.eq_false_iff.mpr ha
      simp only [spaceDeleteGo, ha2, Bool.false_eq_true, if_false] at hc
      rcases List.mem_cons.mp hc with h | h
      · exact h ▸ List.mem_cons_self _ _
      · exact List.mem_cons_of_mem _ (ih _ _ c h)

/-- Pass 2 only deletes whitespace: non-whitespace characters are untouched. -/
theorem spaceDeleteGo_filter (l : List Char) :
    ∀ (st : Option Bool) (g : Stream' ℚ),
      (spaceDeleteGo st l g).1.filter (fun c => !(isSpaceChar c)) =
        l.filter (fun c => !(isSpaceChar c)) := by
  induction l with
  | nil => intro st g; rfl
  | cons a cs ih =>
    intro st g
    by_cases ha : isSpaceChar a = true
    · have hfa : (fun c => !(isSpaceChar c)) a = false := by simp [ha]
      cases st with
      | some keep =>
        cases keep with
        | true =>
          simp only [spaceDeleteGo, if_pos ha, if_true, List.filter_cons, hfa,
            Bool.false_eq_true, if_false, ih]
        | false =>
          simp only [spaceDeleteGo, if_pos ha, if_true, List.filter_cons, hfa,
            Bool.false_eq_true, if_false, ih]
      | none =>
        by_cases hr : g.head < mkRat 15 100
        · simp only [spaceDeleteGo, if_pos ha, if_pos hr, List.filter_cons, hfa,
            Bool.false_eq_true, if_false, ih]
        · simp only [spaceDeleteGo, if_pos ha, if_neg hr, List.filter_cons, hfa,
            Bool.false_eq_true, if_false, ih]
    · have ha2 : isSpaceChar a = false := Bool.eq_false_iff.mpr ha
      have hfa : (fun c => !(isSpaceChar c)) a = true := by simp [ha2]
      simp only [spaceDeleteGo, ha2, Bool.false_eq_true, if_false,
        List.filter_cons, hfa, if_true, ih]

/-- Pass 3 only inserts space characters. -/
theorem spaceInsertPass_subset (l : List Char) :
    ∀ (g : Stream' ℚ) c, c ∈ (spaceInsertPass l g).1 → c ∈ l ∨ c = ' ' := by
  induction l with
  | nil => intro g c hc; simp [spaceInsertPass] at hc
  | cons a cs ih =>
    intro g c hc
    by_cases ha : isWordChar a = true
    · simp only [spaceInsertPass, if_pos ha] at hc
      by_cases hr : g.head < mkRat 8 100
      · rw [if_pos hr] at hc
        rcases List.mem_cons.mp hc with h | h
        · exact Or.inl (h ▸ List.mem_cons_self _ _)
        · rcases List.mem_cons.mp h with h2 | h2
          · exact Or.inr h2
          · rcases ih _ c h2 with h3 | h3
            · exact Or.inl (List.mem_cons_of_mem _ h3)
            · exact Or.inr h3
      · rw [if_neg hr] at hc
        rcases List.mem_cons.mp hc with h | h
        · exact Or.inl (h ▸ List.mem_cons_self _ _)
        · rcases ih _ c h with h3 | h3
          · exact Or.inl (List.mem_cons_of_mem _ h3)
          · exact Or.inr h3
    · have ha2 : isWordChar a = false := Bool.eq_false_iff.mpr ha
      simp only [spaceInsertPass, ha2, Bool.false_eq_true, if_false] at hc
      rcases List.mem_cons.mp hc with h | h
      · exact Or.inl (h ▸ List.mem_cons_self _ _)
      · rcases ih _ c h with h3 | h3
        · exact Or.inl (List.mem_cons_of_mem _ h3)
        · exact Or.inr h3

/-- Pass 3 only inserts whitespace: non-whitespace characters are untouched. -/
theorem spaceInsertPass_filter (l : List Char) :
    ∀ (g : Stream' ℚ),
      (spaceInsertPass l g).1.filter (fun c => !(isSpaceChar c)) =
        l.filter (fun c => !(isSpaceChar c)) := by
  induction l with
  | nil => intro g; rfl
  | cons a cs ih =>
    intro g
    have hsp : List.filter (fun c => !(isSpaceChar c)) [' '] = [] := by decide
    by_cases ha : isWordChar a = true
    · simp only [spaceInsertPass, if_pos ha]
      by_cases hr : g.head < mkRat 8 100
      · rw [if_pos hr]
        have : (a :: ' ' :: (spaceInsertPass cs g.tail).1) =
            [a] ++ [' '] ++ (spaceInsertPass cs g.tail).1 := by simp
        rw [this, List.filter_append, List.filter_append, hsp, List.append_nil, ih]
        simp [List.filter_cons, isWordChar_not_isSpaceChar a ha]
      · rw [if_neg hr]
        simp only [List.filter_cons, ih]
    · have ha2 : isWordChar a = false := Bool.eq_false_iff.mpr ha
      simp only [spaceInsertPass, ha2, Bool.false_eq_true, if_false,
        List.filter_cons, ih]

/-- C10: removing all whitespace from the output of the formatting pass gives
exactly the input with all whitespace removed — the pass only rewrites,
deletes, or inserts whitespace and never touches a non-whitespace character. -/
theorem C10_whitespace_frame (l : List Char) (g : Stream' ℚ) :
    (addOCRFormattingIssues l g).1.filter (fun c => !(isSpaceChar c)) =
      l.filter (fun c => !(isSpaceChar c)) := by
  unfold addOCRFormattingIssues lineBreakPass spaceDeletePass
  rw [spaceInsertPass_filter, spaceDeleteGo_filter,
    pairScan_filter (tokens l) g (tokens_uniform l), tokens_flatten]

/-- C5 (amended): every character of the formatting pass's output occurs in
its input or is a space or line-break character newly inserted by the pass. -/
theorem C5_content_monotone (l : List Char) (g : Stream' ℚ) :
    ∀ c ∈ (addOCRFormattingIssues l g).1, c ∈ l ∨ c = ' ' ∨ c = '\n' := by
  intro c hc
  unfold addOCRFormattingIssues lineBreakPass spaceDeletePass at hc
  rcases spaceInsertPass_subset _ _ c hc with h | h
  · have h2 := spaceDeleteGo_subset _ _ _ c h
    rcases pairScan_subset (tokens l) g c h2 with h3 | h3
    · rw [tokens_flatten] at h3
      exact Or.inl h3
    · exact Or.inr (Or.inr h3)
  · exact Or.inr (Or.inl h)

/-- C5 as stated is false: with a stream whose first draw fires the line-break
replacement and whose later draws fire nothing, the formatting pass emits a
line-break character that neither occurs in the input nor is a space. -/
theorem C5_counterexample :
    '\n' ∈ (addOCRFormattingIssues ['a', ' ', 'b']
        (fun n => if n = 0 then 0 else 1)).1
    ∧ '\n' ∉ (['a', ' ', 'b'] : List Char)
    ∧ ('\n' : Char) ≠ ' ' := by
  refine ⟨by decide, by decide, by decide⟩

theorem C5_witness :
    'a' ∈ (addOCRFormattingIssues ['a'] (fun _ => 1)).1
    ∧ ('a' ∈ (['a'] : List Char) ∨ 'a' = ' ' ∨ 'a' = '\n') := by
  constructor
  · decide
  · exact C5_content_monotone ['a'] (fun _ => 1) 'a' (by decide)

/-- Modelled from the claim's reading of §4.2 step 1, for comparison: every
adjacent whitespace-separated word-pair is considered independently, so the
second word of a pair stays available as the first word of the next pair. -/
def pairScanClaim : List (List Char) → Stream' ℚ → List Char × Stream' ℚ
  | [], g => ([], g)
  | [t], g => (t, g)
  | [t1, t2], g => (t1 ++ t2, g)
  | t1 :: t2 :: t3 :: ts, g =>
    if runIsWord t1 && runIsSpace t2 && runIsWord t3 then
      let rest := pairScanClaim (t3 :: ts) g.tail
      ((t1 ++ (if g.head < mkRat 1 10 then ['\n'] else t2)) ++ rest.1, rest.2)
    else
      let rest := pairScanClaim (t2 :: t3 :: ts) g
      (t1 ++ rest.1, rest.2)

/-- The claim's reading of the spurious-line-break pass, applied to a string. -/
def lineBreakPassClaim (l : List Char) (g : Stream' ℚ) : List Char × Stream' ℚ :=
  pairScanClaim (tokens l) g

/-- C6 as stated is false: in a three-word string the middle word is consumed
by the first match, so the second word-pair is never considered — the claim's
reading breaks both separators under an always-below-0.1 stream, while the
code breaks only the first. -/
theorem C6_counterexample :
    (lineBreakPass ['a', ' ', 'b', ' ', 'c'] (fun _ => 0)).1 =
        ['a', '\n', 'b', ' ', 'c']
    ∧ (lineBreakPassClaim ['a', ' ', 'b', ' ', 'c'] (fun _ => 0)).1 =
        ['a', '\n', 'b', '\n', 'c']
    ∧ (lineBreakPass ['a', ' ', 'b', ' ', 'c'] (fun _ => 0)).1 ≠
        (lineBreakPassClaim ['a', ' ', 'b', ' ', 'c'] (fun _ => 0)).1 := by
  refine ⟨by decide, by decide, by decide⟩

/-- C6 (amended): the spurious-line-break pass scans the maximal-run
decomposition of the input left to right; a match is a word run, a whitespace
run and a word run, and all three are consumed, with one draw below 0.1
replacing the separating whitespace by a line break — so a word consumed as
the second member of a pair is not reconsidered as the first member of the
next pair, and text outside matches is untouched. -/
theorem C6_linebreak_matching :
    (∀ l g, lineBreakPass l g = pairScan (tokens l) g)
    ∧ (∀ l, (tokens l).flatten = l)
    ∧ (∀ t1 t2 t3 ts g, (runIsWord t1 && runIsSpace t2 && runIsWord t3) = true →
        pairScan (t1 :: t2 :: t3 :: ts) g =
          ((t1 ++ (if g.head < mkRat 1 10 then ['\n'] else t2) ++ t3) ++
              (pairScan ts g.tail).1, (pairScan ts g.tail).2))
    ∧ (∀ t1 t2 t3 ts g, (runIsWord t1 && runIsSpace t2 && runIsWord t3) = false →
        pairScan (t1 :: t2 :: t3 :: ts) g =
          (t1 ++ (pairScan (t2 :: t3 :: ts) g).1,
            (pairScan (t2 :: t3 :: ts) g).2)) := by
  refine ⟨fun l g => rfl, tokens_flatten, ?_, ?_⟩
  · intro t1 t2 t3 ts g h
    simp only [pairScan, if_pos h]
  · intro t1 t2 t3 ts g h
    simp only [pairScan, h, Bool.false_eq_true, if_false]

theorem C6_witness :
    (runIsWord ['a'] && runIsSpace [' '] && runIsWord ['b']) = true
    ∧ pairScan [['a'], [' '], ['b']] (fun _ => (0 : ℚ)) =
        (((['a'] ++ (if Stream'.head (fun _ => (0 : ℚ)) < mkRat 1 10
            then ['\n'] else [' ']) ++ ['b']) ++
            (pairScan [] (Stream'.tail (fun _ => (0 : ℚ)))).1),
          (pairScan [] (Stream'.tail (fun _ => (0 : ℚ)))).2) :=
  ⟨by decide, C6_linebreak_matching.2.2.1 ['a'] [' '] ['b'] [] (fun _ => 0) (by decide)⟩

/-- Modelled from the claim's reading of §4.2 step 3, for comparison: every
single character, word or non-word alike, draws and may receive an appended
space. -/
def spaceInsertPassClaim : List Char → Stream' ℚ → List Char × Stream' ℚ
  | [], g => ([], g)
  | c :: cs, g =>
    let rest := spaceInsertPassClaim cs g.tail
    ((if g.head < mkRat 8 100 then c :: ' ' :: rest.1 else c :: rest.1), rest.2)

/-- C7 as stated is false: the pass matches `\w` only, so a non-word character
such as a full stop never receives an appended space and consumes no draw,
while the claim's reading appends one whenever the draw is below 0.08. -/
theorem C7_counterexample :
    (spaceInsertPass ['.'] (fun _ => 0)).1 = ['.']
    ∧ (spaceInsertPassClaim ['.'] (fun _ => 0)).1 = ['.', ' ']
    ∧ (spaceInsertPass ['.'] (fun _ => 0)).1 ≠
        (spaceInsertPassClaim ['.'] (fun _ => 0)).1 := by
  refine ⟨by decide, by decide, by decide⟩

/-- C7 (amended): for every word character one draw below 0.08 appends one
space right after it; a non-word character is emitted unchanged and consumes
no draw. -/
theorem C7_space_insertion (c : Char) (cs : List Char) (g : Stream' ℚ) :
    (isWordChar c = true →
      spaceInsertPass (c :: cs) g =
        ((if g.head < mkRat 8 100 then c :: ' ' :: (spaceInsertPass cs g.tail).1
          else c :: (spaceInsertPass cs g.tail).1),
          (spaceInsertPass cs g.tail).2))
    ∧ (isWordChar c = false →
      spaceInsertPass (c :: cs) g =
        (c :: (spaceInsertPass cs g).1, (spaceInsertPass cs g).2)) := by
  constructor
  · intro h
    simp only [spaceInsertPass, if_pos h]
  · intro h
    simp only [spaceInsertPass, h, Bool.false_eq_true, if_false]

theorem C7_witness :
    isWordChar 'a' = true
    ∧ spaceInsertPass ['a'] (fun _ => (0 : ℚ)) =
        ((if Stream'.head (fun _ => (0 : ℚ)) < mkRat 8 100
          then 'a' :: ' ' :: (spaceInsertPass [] (Stream'.tail (fun _ => (0 : ℚ)))).1
          else 'a' :: (spaceInsertPass [] (Stream'.tail (fun _ => (0 : ℚ)))).1),
          (spaceInsertPass [] (Stream'.tail (fun _ => (0 : ℚ)))).2) :=
  ⟨by decide, (C7_space_insertion 'a' [] (fun _ => 0)).1 (by decide)⟩

theorem corruptField_none (g : Stream' ℚ) : corruptField none g = (none, g) := rfl

theorem corruptField_some_nil (g : Stream' ℚ) :
    corruptField (some []) g = (some [], g) := rfl

theorem corruptField_nonempty (s : List Char) (hs : s ≠ []) (g : Stream' ℚ) :
    corruptField (some s) g =
      (some (introduceRealisticOCRErrors s g).1,
        (introduceRealisticOCRErrors s g).2) := by
  simp only [corruptField]
  rw [if_neg (by simp [List.isEmpty_iff, hs])]

theorem corruptMeds_length (ms : List Medication) :
    ∀ g, (corruptMeds ms g).1.length = ms.length := by
  induction ms with
  | nil => intro g; rfl
  | cons m t ih => intro g; simp [corruptMeds, ih]

theorem corruptMeds_get (ms : List Medication) :
    ∀ (g : Stream' ℚ) i (hi : i < ms.length)
      (hi2 : i < (corruptMeds ms g).1.length),
      ∃ g2, (corruptMeds ms g).1.get ⟨i, hi2⟩ =
        (corruptMedication (ms.get ⟨i, hi⟩) g2).1 := by
  induction ms with
  | nil => intro g i hi; exact absurd hi (Nat.not_lt_zero i)
  | cons m t ih =>
    intro g i hi hi2
    cases i with
    | zero => exact ⟨g, rfl⟩
    | succ n =>
      have hn : n < t.length := Nat.lt_of_succ_lt_succ hi
      have hn2 : n < (corruptMeds t (corruptMedication m g).2).1.length := by
        rw [corruptMeds_length]
        exact hn
      obtain ⟨g2, hg⟩ := ih (corruptMedication m g).2 n hn hn2
      exact ⟨g2, by simpa [corruptMeds, List.get_cons_succ] using hg⟩

theorem corruptMedication_field (m : Medication) (g : Stream' ℚ)
    (fld : Medication → Option (List Char))
    (hfld : fld = Medication.name ∨ fld = Medication.dosage
      ∨ fld = Medication.frequency ∨ fld = Medication.duration
      ∨ fld = Medication.instructions) :
    ∃ g2, fld ((corruptMedication m g).1) = (corruptField (fld m) g2).1 := by
  rcases hfld with rfl | rfl | rfl | rfl | rfl
  · exact ⟨g, rfl⟩
  · exact ⟨(corruptField m.name g).2, rfl⟩
  · exact ⟨(corruptField m.dosage (corruptField m.name g).2).2, rfl⟩
  · exact ⟨(corruptField m.frequency
      (corruptField m.dosage (corruptField m.name g).2).2).2, rfl⟩
  · exact ⟨(corruptField m.duration (corruptField m.frequency
      (corruptField m.dosage (corruptField m.name g).2).2).2).2, rfl⟩

/-- C2: the orchestrator applies the character pass followed by the formatting
pass to the full text, while every non-empty medication sub-field and a
non-empty doctor name receive the character pass alone (their output is the
character pass of their input under some stream — no formatting pass). -/
theorem C2_field_orchestrator (d : ParsedData) (g : Stream' ℚ) :
    ((processParsedData d g).1.text =
        (addOCRFormattingIssues (introduceRealisticOCRErrors d.text g).1
          (introduceRealisticOCRErrors d.text g).2).1)
    ∧ (processParsedData d g).1.medications.length = d.medications.length
    ∧ (∀ i (hi : i < d.medications.length)
        (hi2 : i < (processParsedData d g).1.medications.length)
        (fld : Medication → Option (List Char)),
        (fld = Medication.name ∨ fld = Medication.dosage
          ∨ fld = Medication.frequency ∨ fld = Medication.duration
          ∨ fld = Medication.instructions) →
        ∀ s, fld (d.medications.get ⟨i, hi⟩) = some s → s ≠ [] →
          ∃ g2, fld ((processParsedData d g).1.medications.get ⟨i, hi2⟩) =
            some (introduceRealisticOCRErrors s g2).1)
    ∧ (∀ s, d.doctorName = some s → s ≠ [] →
        ∃ g2, (processParsedData d g).1.doctorName =
          some (introduceRealisticOCRErrors s g2).1) := by
  refine ⟨rfl, corruptMeds_length d.medications _, ?_, ?_⟩
  · intro i hi hi2 fld hfld s hsome hne
    obtain ⟨g2, hg⟩ := corruptMeds_get d.medications
      (addOCRFormattingIssues (introduceRealisticOCRErrors d.text g).1
        (introduceRealisticOCRErrors d.text g).2).2 i hi hi2
    obtain ⟨g3, hg3⟩ := corruptMedication_field (d.medications.get ⟨i, hi⟩) g2 fld hfld
    refine ⟨g3, ?_⟩
    show fld ((corruptMeds d.medications
      (addOCRFormattingIssues (introduceRealisticOCRErrors d.text g).1
        (introduceRealisticOCRErrors d.text g).2).2).1.get ⟨i, hi2⟩) =
      some (introduceRealisticOCRErrors s g3).1
    rw [hg, hg3, hsome, corruptField_nonempty s hne g3]
  · intro s hsome hne
    refine ⟨(corruptMeds d.medications
      (addOCRFormattingIssues (introduceRealisticOCRErrors d.text g).1
        (introduceRealisticOCRErrors d.text g).2).2).2, ?_⟩
    show (corruptField d.doctorName (corruptMeds d.medications
      (addOCRFormattingIssues (introduceRealisticOCRErrors d.text g).1
        (introduceRealisticOCRErrors d.text g).2).2).2).1 = _
    rw [hsome, corruptField_nonempty s hne]

/-- C4: the orchestrator never corrupts the prescription date, and an absent
(null) field stays absent while an empty-string field stays the identical
empty string, for every medication sub-field and the doctor name. -/
theorem C4_passthrough (d : ParsedData) (g : Stream' ℚ) :
    ((processParsedData d g).1.prescriptionDate = d.prescriptionDate)
    ∧ (processParsedData d g).1.medications.length = d.medications.length
    ∧ (∀ i (hi : i < d.medications.length)
        (hi2 : i < (processParsedData d g).1.medications.length)
        (fld : Medication → Option (List Char)),
        (fld = Medication.name ∨ fld = Medication.dosage
          ∨ fld = Medication.frequency ∨ fld = Medication.duration
          ∨ fld = Medication.instructions) →
        (fld (d.medications.get ⟨i, hi⟩) = none →
          fld ((processParsedData d g).1.medications.get ⟨i, hi2⟩) = none)
        ∧ (fld (d.medications.get ⟨i, hi⟩) = some [] →
          fld ((processParsedData d g).1.medications.get ⟨i, hi2⟩) = some []))
    ∧ ((d.doctorName = none → (processParsedData d g).1.doctorName = none)
      ∧ (d.doctorName = some [] →
          (processParsedData d g).1.doctorName = some [])) := by
  refine ⟨rfl, corruptMeds_length d.medications _, ?_, ?_, ?_⟩
  · intro i hi hi2 fld hfld
    obtain ⟨g2, hg⟩ := corruptMeds_get d.medications
      (addOCRFormattingIssues (introduceRealisticOCRErrors d.text g).1
        (introduceRealisticOCRErrors d.text g).2).2 i hi hi2
    obtain ⟨g3, hg3⟩ := corruptMedication_field (d.medications.get ⟨i, hi⟩) g2 fld hfld
    constructor
    · intro hnone
      show fld ((corruptMeds d.medications
        (addOCRFormattingIssues (introduceRealisticOCRErrors d.text g).1
          (introduceRealisticOCRErrors d.text g).2).2).1.get ⟨i, hi2⟩) = none
      rw [hg, hg3, hnone, corruptField_none]
    · intro hnil
      show fld ((corruptMeds d.medications
        (addOCRFormattingIssues (introduceRealisticOCRErrors d.text g).1
          (introduceRealisticOCRErrors d.text g).2).2).1.get ⟨i, hi2⟩) = some []
      rw [hg, hg3, hnil, corruptField_some_nil]
  · intro hnone
    show (corruptField d.doctorName (corruptMeds d.medications
      (addOCRFormattingIssues (introduceRealisticOCRErrors d.text g).1
        (introduceRealisticOCRErrors d.text g).2).2).2).1 = none
    rw [hnone, corruptField_none]
  · intro hnil
    show (corruptField d.doctorName (corruptMeds d.medications
      (addOCRFormattingIssues (introduceRealisticOCRErrors d.text g).1
        (introduceRealisticOCRErrors d.text g).2).2).2).1 = some []
    rw [hnil, corruptField_some_nil]

/-- A sample medication record for the closed witnesses: non-empty name, null
dosage, empty-string frequency. -/
def medEx : Medication := ⟨some ['n'], none, some [], none, none⟩

/-- A sample parsed result for the closed witnesses. -/
def dataEx : ParsedData := ⟨['x'], [medEx], some ['d'], some ['t']⟩

theorem C2_witness :
    ∃ g2, Medication.name ((processParsedData dataEx (fun _ => 1)).1.medications.get
        ⟨0, by decide⟩) = some (introduceRealisticOCRErrors ['n'] g2).1 :=
  (C2_field_orchestrator dataEx (fun _ => 1)).2.2.1 0 (by decide) (by decide)
    Medication.name (Or.inl rfl) ['n'] rfl (by decide)

theorem C4_witness :
    ((processParsedData dataEx (fun _ => 1)).1.prescriptionDate = some ['t'])
    ∧ Medication.dosage ((processParsedData dataEx (fun _ => 1)).1.medications.get
        ⟨0, by decide⟩) = none
    ∧ Medication.frequency ((processParsedData dataEx (fun _ => 1)).1.medications.get
        ⟨0, by decide⟩) = some [] := by
  refine ⟨?_, ?_, ?_⟩
  · rw [(C4_passthrough dataEx (fun _ => 1)).1]
    rfl
  · exact ((C4_passthrough dataEx (fun _ => 1)).2.2.1 0 (by decide) (by decide)
      Medication.dosage (Or.inr (Or.inl rfl))).1 rfl
  · exact ((C4_passthrough dataEx (fun _ => 1)).2.2.1 0 (by decide) (by decide)
      Medication.frequency (Or.inr (Or.inr (Or.inl rfl)))).2 rfl

end PrescriptionOCR
